import Mathlib

/-!
# Verification of the ratatui-image protocol-negotiation and encoding core

This file gives a shallow embedding, in Lean 4, of the core of the
`ratatui-image` Rust crate (files `src/picker.rs`, `src/protocol/mod.rs`,
`src/protocol/iterm2.rs`) and proves properties of it.

Embedding conventions:
* Rust `u16`/`u32` values are modelled as `Nat` with explicit bounds where
  overflow or saturation matters.
* Rust `String` buffers that only ever receive `char` pushes are modelled as
  `List Char`.
* `f32` arithmetic (used only by `ImageSource::round_pixel_size_to_cells`) is
  modelled exactly: an IEEE-754 single-precision value is represented by an
  unnormalised fraction `Nat × Nat`, and rounding to nearest (ties to even) at
  24 significant bits is carried out with integer arithmetic.
* External collaborators (the PNG codec, the `DefaultHasher`, `imageops`
  compositing, the `Resize` policy living in `src/resize.rs` which is not part
  of the sources under verification) are passed in as explicit function
  parameters, so theorems quantify over them.
* Fallible code returns `Except`/`Option`; stateful code passes state
  explicitly.
-/

namespace RatatuiImage

/-! ## Basic data model: `FontSize`, `Rect` (from ratatui), `ProtocolType` -/

/-- `FontSize` is `(u16, u16)`: cell pixel width and height. -/
abbrev FontSize := Nat × Nat

/-- ratatui `Rect` in cell coordinates. All fields are `u16` in the source. -/
structure Rect where
  x : Nat
  y : Nat
  width : Nat
  height : Nat
deriving DecidableEq, Repr

/-- `Rect::new(0, 0, w, h)` and friends; ratatui saturates `u16` additions. -/
def U16_MAX : Nat := 65535

/-- ratatui `Rect::right()` = `x.saturating_add(width)`. -/
def Rect.right (r : Rect) : Nat := min (r.x + r.width) U16_MAX

/-- ratatui `Rect::bottom()` = `y.saturating_add(height)`. -/
def Rect.bottom (r : Rect) : Nat := min (r.y + r.height) U16_MAX

/-- ratatui `Rect::left()`. -/
def Rect.left (r : Rect) : Nat := r.x

/-- ratatui `Rect::top()`. -/
def Rect.top (r : Rect) : Nat := r.y

/-- ratatui `Rect::contains(Position)`. -/
def Rect.containsPos (r : Rect) (x y : Nat) : Bool :=
  r.x ≤ x && x < r.right && r.y ≤ y && y < r.bottom

/-- `ProtocolType` from `src/picker.rs`. -/
inductive ProtocolType where
  | Halfblocks
  | Sixel
  | Kitty
  | Iterm2
deriving DecidableEq, Repr

/-- `ProtocolType::next` from `src/picker.rs` lines 49-56. -/
def ProtocolType.next (p : ProtocolType) : ProtocolType :=
  match p with
  | .Halfblocks => .Sixel
  | .Sixel => .Kitty
  | .Kitty => .Iterm2
  | .Iterm2 => .Halfblocks

/-! ## The kitty image-id counter (from `Picker::new_protocol` /
`Picker::new_resize_protocol`) -/

def U32_MAX : Nat := 4294967295

/-- `u32::checked_add` for in-range operands: `none` exactly on overflow. -/
def u32CheckedAdd (a b : Nat) : Option Nat :=
  if a + b ≤ U32_MAX then some (a + b) else none

/-- The counter update `self.kitty_counter.checked_add(1).unwrap_or(1)`
performed by both `Picker::new_protocol` (line 172) and
`Picker::new_resize_protocol` (line 203) when the current protocol is
`ProtocolType::Kitty`. -/
def mintKittyCounter (c : Nat) : Nat := (u32CheckedAdd c 1).getD 1

/-- The counter after `new_protocol`/`new_resize_protocol`: only the Kitty
branch mints an id; all other branches leave the counter untouched. -/
def counterAfterNewProtocol (p : ProtocolType) (c : Nat) : Nat :=
  match p with
  | .Kitty => mintKittyCounter c
  | _ => c

/-! ## The incremental reply parser (`Parser` in `src/picker.rs`, lines
432-547).  The Rust `String` buffer receives only `char` pushes, so it is
modelled as `List Char`; `data.push(next)` becomes `data ++ [next]`. -/

/-- `ParsedResponse`, including the `Unknown` tag used for the idle state. -/
inductive ParsedResponse where
  | Unknown
  | Kitty (b : Bool)
  | Sixel (b : Bool)
  | CellSize (s : Option (Nat × Nat))
  | Status
deriving DecidableEq, Repr

/-- The parser state: the text buffer and the currently identified sequence. -/
structure Parser where
  data : List Char
  seq : ParsedResponse
deriving DecidableEq, Repr

/-- `Parser::new`. -/
def Parser.new : Parser := ⟨[], .Unknown⟩

/-- Rust `str::contains(pat)` on the buffer: substring (infix) test. -/
def listContainsSub (s pat : List Char) : Bool := decide (pat <:+: s)

/-- Rust `u16::from_str` (`"7".parse::<u16>()`): an optional leading `'+'`,
then one or more ASCII digits, value at most `u16::MAX`. -/
def parseU16 (s : List Char) : Option Nat :=
  let ds := match s with
    | '+' :: rest => rest
    | l => l
  if ds = [] then none
  else if ds.all (fun c => c.isDigit) then
    let v := ds.foldl (fun acc c => acc * 10 + (c.toNat - 48)) 0
    if v ≤ U16_MAX then some v else none
  else none

/-- Rust `str::split(';')`: splits keeping empty pieces (`"" ↦ [""]`). -/
def splitSemi (l : List Char) : List (List Char) :=
  match l with
  | [] => [[]]
  | c :: rest =>
    if c = ';' then [] :: splitSemi rest
    else
      match splitSemi rest with
      | h :: t => (c :: h) :: t
      | [] => [[c]]

/-- `Parser::restart` (clears the buffer, returns to the idle state, emits
nothing). -/
def Parser.restart : Parser × Option ParsedResponse := (⟨[], .Unknown⟩, none)

/-- `Parser::push` from `src/picker.rs` lines 453-541, one character at a
time.  Returns the new parser state and the emitted fact, if any. -/
def Parser.push (p : Parser) (next : Char) : Parser × Option ParsedResponse :=
  match p.seq with
  | .Unknown =>
    if next = '\x1b' then
      -- If the current sequence has not been identified yet, restart on Esc.
      Parser.restart
    else
      let sequenceNew : ParsedResponse :=
        match p.data, next with
        | ['['], '?' => .Sixel false
        | ['_', 'G', 'i', '=', '3', '1'], ';' => .Kitty false
        | ['[', '6'], ';' => .CellSize none
        | ['['], '0' => .Status
        | _, _ => p.seq
      (⟨p.data ++ [next], sequenceNew⟩, none)
  | .Sixel _ =>
    if next = 'c' then
      let isSixel := listContainsSub p.data ";4;".data
        || listContainsSub p.data "?4;".data
        || List.isSuffixOf ";4".data p.data
        || List.isSuffixOf "?4".data p.data
      (⟨[], .Unknown⟩, some (.Sixel isSixel))
    else if next = '\x1b' then Parser.restart
    else (⟨p.data ++ [next], p.seq⟩, none)
  | .Kitty _ =>
    if next = '\\' then
      let isKitty := p.data = "_Gi=31;OK\x1b".data
      (⟨[], .Unknown⟩, some (.Kitty isKitty))
    else (⟨p.data ++ [next], p.seq⟩, none)
  | .CellSize _ =>
    if next = 't' then
      let cellSize : Option (Nat × Nat) :=
        match splitSemi p.data with
        | [_, h, w] =>
          match parseU16 h, parseU16 w with
          | some hv, some wv => if 0 < wv ∧ 0 < hv then some (wv, hv) else none
          | _, _ => none
        | _ => none
      (⟨[], .Unknown⟩, some (.CellSize cellSize))
    else if next = '\x1b' then Parser.restart
    else (⟨p.data ++ [next], p.seq⟩, none)
  | .Status =>
    if next = 'n' then (p, some .Status)
    else if next = '\x1b' then Parser.restart
    else (⟨p.data ++ [next], p.seq⟩, none)

/-- The read loop of `query_stdio_capabilities`: feed characters one at a
time, collecting every emitted fact in order. -/
def Parser.pushAll (p : Parser) (cs : List Char) : Parser × List ParsedResponse :=
  match cs with
  | [] => (p, [])
  | c :: rest =>
    let step := p.push c
    let tail := step.1.pushAll rest
    (tail.1, match step.2 with
      | some fact => fact :: tail.2
      | none => tail.2)

/-! ## Exact model of the `f32` pipeline in
`ImageSource::round_pixel_size_to_cells` (`src/protocol/mod.rs` 208-217)

The Rust code computes `(img_width as f32 / char_width as f32).ceil() as u16`.
We model a (positive, finite) `f32` value by an unnormalised fraction
`Nat × Nat` holding exactly its rational value, and implement IEEE-754
round-to-nearest, ties-to-even at 24 significant bits with integer
arithmetic.  The model covers every value this pipeline can produce from
`u32`/`u16` inputs with a nonzero divisor (all are normal, far from
overflow); division by a zero cell size (which would give `inf`/NaN in Rust)
is outside the model and outside every claim, all of which assume positive
cell sizes. -/

/-- Fuel-driven floor of the base-2 logarithm (`natLog2F n` is exact for
`1 ≤ n ≤ fuel`); written with structural fuel recursion so that the kernel
can evaluate it inside `decide`. -/
def log2floor (fuel n : Nat) : Nat :=
  match fuel with
  | 0 => 0
  | fuel + 1 => if n < 2 then 0 else log2floor fuel (n / 2) + 1

/-- `⌊log₂ n⌋` for `n ≥ 1` (0 at 0). -/
def natLog2F (n : Nat) : Nat := log2floor n n

/-- Round the fraction `num / den` (`den > 0`) to the nearest integer, ties
to even: the IEEE-754 default rounding applied to an exact rational. -/
def rneNat (num den : Nat) : Nat :=
  if 2 * (num % den) < den then num / den
  else if den < 2 * (num % den) then num / den + 1
  else if num / den % 2 = 0 then num / den else num / den + 1

/-- `⌊log₂ (num / den)⌋` for `num / den ≥ 2⁻⁴⁰`, computed by scaling by
`2⁴⁰` first. -/
def floorLog2F (num den : Nat) : Int :=
  (natLog2F (num * 2 ^ 40 / den) : Int) - 40

/-- Round the positive rational `num / den` to the nearest `f32` (nearest
even at 24 significant bits).  The result is returned as an exact fraction:
with `L = ⌊log₂ (num/den)⌋` and `s = 23 - L` the value is `m · 2⁻ˢ` where
`m = rne((num/den) · 2ˢ)` is the nearest-even 24-bit mantissa; the fraction
below writes this uniformly for either sign of `s` using `toNat`. -/
def f32roundF (num den : Nat) : Nat × Nat :=
  if num = 0 then (0, 1)
  else
    (rneNat (num * 2 ^ (23 - floorLog2F num den).toNat)
        (den * 2 ^ (-(23 - floorLog2F num den)).toNat)
      * 2 ^ (-(23 - floorLog2F num den)).toNat,
     2 ^ (23 - floorLog2F num den).toNat)

/-- Rust `n as f32` for a `u32` (round to nearest, ties to even). -/
def u32ToF32 (n : Nat) : Nat × Nat := f32roundF n 1

/-- IEEE-754 `f32` division of exactly-represented operands: the correctly
rounded exact quotient (divisor nonzero). -/
def f32divF (x y : Nat × Nat) : Nat × Nat := f32roundF (x.1 * y.2) (x.2 * y.1)

/-- Ceiling of a nonnegative fraction; `f32::ceil` is exact (every `f32`
at least `2²³` is already an integer, and below that the ceiling is
representable), so the result is modelled directly as the integer. -/
def ceilF (x : Nat × Nat) : Nat := (x.1 + x.2 - 1) / x.2

/-- Exact ceiling division on `Nat` (for stating the specification). -/
def ceilNat (a b : Nat) : Nat := (a + b - 1) / b

/-- Rust `v as u16` for a nonnegative integral `f32` value: truncation with
saturation at `u16::MAX`. -/
def f32AsU16 (v : Nat) : Nat := min v U16_MAX

/-- `ImageSource::round_pixel_size_to_cells` (`src/protocol/mod.rs` 208-217):
`Rect::new(0, 0, (w as f32 / cw as f32).ceil() as u16,
(h as f32 / ch as f32).ceil() as u16)`. -/
def roundPixelSizeToCells (imgWidth imgHeight : Nat) (fontSize : FontSize) :
    Rect :=
  let width := f32AsU16 (ceilF (f32divF (u32ToF32 imgWidth) (u32ToF32 fontSize.1)))
  let height := f32AsU16 (ceilF (f32divF (u32ToF32 imgHeight) (u32ToF32 fontSize.2)))
  ⟨0, 0, width, height⟩

/-! ## Colors, images and `ImageSource` (`src/protocol/mod.rs` 153-218) -/

/-- `image::Rgba<u8>`. -/
structure Rgba where
  r : Nat
  g : Nat
  b : Nat
  a : Nat
deriving DecidableEq, Repr

/-- `image::Rgb<u8>`. -/
structure Rgb where
  r : Nat
  g : Nat
  b : Nat
deriving DecidableEq, Repr

/-- A decoded bitmap (`image::DynamicImage`): pixel dimensions and the raw
byte buffer returned by `as_bytes`.  The codec internals are external to the
crate. -/
structure Image where
  width : Nat
  height : Nat
  bytes : List Nat
deriving DecidableEq, Repr

/-- `ImageBuffer::from_pixel(w, h, color)`: a solid bitmap of one RGBA
pixel. -/
def Image.fromPixel (w h : Nat) (c : Rgba) : Image :=
  ⟨w, h, (List.range (w * h)).flatMap (fun _ => [c.r, c.g, c.b, c.a])⟩

/-- `ImageSource` (`src/protocol/mod.rs` 169-178). -/
structure ImageSource where
  image : Image
  area : Rect
  hash : Nat
  backgroundColor : Rgba
deriving DecidableEq, Repr

/-- `ImageSource::new` (`src/protocol/mod.rs` 182-207).  The `DefaultHasher`
and `imageops::overlay` are external collaborators, passed as the function
parameters `hashF` and `overlayF`; `overlayF bg img` models
`imageops::overlay(&mut bg, &img, 0, 0)` returning the mutated `bg`.
Note the fingerprint is computed from `image.as_bytes()` before any
compositing. -/
def ImageSource.new (hashF : List Nat → Nat) (overlayF : Image → Image → Image)
    (image : Image) (fontSize : FontSize) (backgroundColor : Rgba) :
    ImageSource :=
  let area := roundPixelSizeToCells image.width image.height fontSize
  let hash := hashF image.bytes
  let imageOut :=
    if backgroundColor.a ≠ 0 then
      overlayF (Image.fromPixel image.width image.height backgroundColor) image
    else image
  ⟨imageOut, area, hash, backgroundColor⟩

/-! ## The ratatui cell buffer (external collaborator of `render`) -/

/-- A ratatui buffer cell: only the fields touched by this crate (`symbol`,
`skip`) are modelled. -/
structure Cell where
  symbol : String
  skip : Bool
deriving DecidableEq, Repr

/-- ratatui `Buffer`: a rectangular area and its cells in row-major order. -/
structure Buffer where
  area : Rect
  content : List Cell
deriving DecidableEq, Repr

/-- ratatui `Buffer::index_of` for an in-area position. -/
def Buffer.indexOf (b : Buffer) (x y : Nat) : Nat :=
  (y - b.area.y) * b.area.width + (x - b.area.x)

/-- `buf.cell_mut((x, y)).map(|cell| f(cell))`: ratatui `cell_mut` returns
`None` (so the closure does not run) when the position is outside the
buffer's area. -/
def Buffer.modifyCell (b : Buffer) (x y : Nat) (f : Cell → Cell) : Buffer :=
  if b.area.containsPos x y then
    let i := b.indexOf x y
    { b with content := b.content.set i (f (b.content.getD i ⟨" ", false⟩)) }
  else b

/-! ## The iTerm2 encoder (`src/protocol/iterm2.rs`) -/

/-- The error produced by `image::DynamicImage::write_to` (an external codec
error, opaque to this crate). -/
inductive EncodeError where
  | imageError (msg : String)
deriving DecidableEq, Repr

/-- The standard base64 alphabet. -/
def b64char (i : Nat) : Char :=
  "ABCDEFGHIJKLMNOPQRSTUVWXYZabcdefghijklmnopqrstuvwxyz0123456789+/".data.getD i 'A'

/-- `base64::engine::general_purpose::STANDARD.encode` on a byte list. -/
def base64Encode : List Nat → String
  | [] => ""
  | [a] =>
    String.mk [b64char (a / 4), b64char (a % 4 * 16), '=', '=']
  | [a, b] =>
    String.mk [b64char (a / 4), b64char (a % 4 * 16 + b / 16),
      b64char (b % 16 * 4), '=']
  | a :: b :: c :: rest =>
    String.mk [b64char (a / 4), b64char (a % 4 * 16 + b / 16),
      b64char (b % 16 * 4 + c / 64), b64char (c % 64)] ++ base64Encode rest

/-- `encode` (`src/protocol/iterm2.rs` 49-67): serialize to PNG (external
codec `img.write_to`, passed as `pngWrite`), base64, and wrap in the iTerm2
inline-image control sequence, with the tmux passthrough envelope when
`isTmux`. -/
def encode (pngWrite : Image → Except EncodeError (List Nat)) (img : Image)
    (isTmux : Bool) : Except EncodeError String :=
  match pngWrite img with
  | .error e => .error e
  | .ok png =>
    let data := base64Encode png
    let envl : String × String :=
      if isTmux then ("\x1bPtmux;\x1b\x1b", "\x1b\\") else ("\x1b", "")
    .ok (envl.1 ++ "]1337;File=inline=1;size=" ++ toString png.length
      ++ ";width=" ++ toString img.width ++ "px;height=" ++ toString img.height
      ++ "px;doNotMoveCursor=1:" ++ data ++ "\x07" ++ envl.2)

/-- `FixedIterm2` (`src/protocol/iterm2.rs` 10-15). -/
structure FixedIterm2 where
  data : String
  area : Rect
  isTmux : Bool
deriving DecidableEq, Repr

/-- `FixedIterm2::default()`. -/
def FixedIterm2.default : FixedIterm2 := ⟨"", ⟨0, 0, 0, 0⟩, false⟩

/-- The `Resize` policy.  Its implementation lives in `src/resize.rs`, which
is not among the sources under verification; it is therefore modelled as an
opaque pair of functions with the signatures the call sites use:
`needsResize source font_size current_area area force` and
`resizeFn source font_size current_area area background_color force`. -/
structure ResizeFns where
  needsResize : ImageSource → FontSize → Rect → Rect → Bool → Option Rect
  resizeFn : ImageSource → FontSize → Rect → Rect → Option Rgb → Bool →
    Option (Image × Rect)

/-- `render_area` (`src/protocol/iterm2.rs` 106-120). -/
def renderArea (rect area : Rect) (overdraw : Bool) : Option Rect :=
  if overdraw then
    some ⟨area.x, area.y, min rect.width area.width, min rect.height area.height⟩
  else if rect.width > area.width ∨ rect.height > area.height then none
  else some ⟨area.x, area.y, rect.width, rect.height⟩

/-- `render` (`src/protocol/iterm2.rs` 78-104): place the whole encoded
payload in the top-left cell of the render area and mark every other covered
cell as skip; write nothing at all if `render_area` refuses. -/
def renderF (rect : Rect) (data : String) (area : Rect) (buf : Buffer)
    (overdraw : Bool) : Buffer :=
  match renderArea rect area overdraw with
  | none => buf
  | some r =>
    let buf1 := buf.modifyCell r.x r.y (fun cell => { cell with symbol := data })
    let coords := (List.range' r.top (r.bottom - r.top)).flatMap
      (fun y => (List.range' r.left (r.right - r.left)).map (fun x => (x, y)))
    match coords with
    | [] => buf1
    | _ :: rest =>
      rest.foldl (fun b p => b.modifyCell p.1 p.2 (fun cell => { cell with skip := true }))
        buf1

/-- `impl Protocol for FixedIterm2 — fn render` (`src/protocol/iterm2.rs`
70-72): fixed rendering never overdraws. -/
def FixedIterm2.render (p : FixedIterm2) (area : Rect) (buf : Buffer) : Buffer :=
  renderF p.area p.data area buf false

/-- `FixedIterm2::from_source` (`src/protocol/iterm2.rs` 18-45). -/
def FixedIterm2.fromSource (pngWrite : Image → Except EncodeError (List Nat))
    (resize : ResizeFns) (source : ImageSource) (fontSize : FontSize)
    (backgroundColor : Option Rgb) (isTmux : Bool) (area : Rect) :
    Except EncodeError FixedIterm2 :=
  let resized := resize.resizeFn source fontSize ⟨0, 0, 0, 0⟩ area
    backgroundColor false
  let imgArea : Image × Rect :=
    match resized with
    | some (img, desired) => (img, desired)
    | none => (source.image, source.area)
  match encode pngWrite imgArea.1 isTmux with
  | .ok data => .ok ⟨data, imgArea.2, isTmux⟩
  | .error e => .error e

/-- `Iterm2State` (`src/protocol/iterm2.rs` 122-128). -/
structure Iterm2State where
  source : ImageSource
  fontSize : FontSize
  current : FixedIterm2
  hash : Nat
deriving DecidableEq, Repr

/-- `Iterm2State::new` (`src/protocol/iterm2.rs` 131-141). -/
def Iterm2State.new (source : ImageSource) (fontSize : FontSize)
    (isTmux : Bool) : Iterm2State :=
  ⟨source, fontSize, { FixedIterm2.default with isTmux := isTmux }, 0⟩

/-- `Iterm2State::needs_resize` (`src/protocol/iterm2.rs` 145-147). -/
def Iterm2State.needsResize (st : Iterm2State) (resize : ResizeFns)
    (area : Rect) : Option Rect :=
  resize.needsResize st.source st.fontSize st.current.area area false

/-- `Iterm2State::resize_encode` (`src/protocol/iterm2.rs` 148-177): a no-op
for a zero-size area; otherwise resize (forcing when the source fingerprint
differs from the last encoded one) and re-encode, replacing the cached
`FixedIterm2` and fingerprint only on success — the `Err(_)` arm keeps the
previous state and swallows the error. -/
def Iterm2State.resizeEncode (pngWrite : Image → Except EncodeError (List Nat))
    (resize : ResizeFns) (st : Iterm2State) (backgroundColor : Option Rgb)
    (area : Rect) : Iterm2State :=
  if area.width = 0 || area.height = 0 then st
  else
    -- `force` in the source is `self.source.hash != self.hash`, and `is_tmux`
    -- is `self.current.is_tmux`; both are inlined here.
    match resize.resizeFn st.source st.fontSize st.current.area area
      backgroundColor (st.source.hash != st.hash) with
    | none => st
    | some (img, rect) =>
      match encode pngWrite img st.current.isTmux with
      | .ok data =>
        { st with current := ⟨data, rect, st.current.isTmux⟩, hash := st.source.hash }
      | .error _ => st

/-- `Iterm2State — fn render` (`src/protocol/iterm2.rs` 178-180): stateful
rendering overdraws. -/
def Iterm2State.render (st : Iterm2State) (area : Rect) (buf : Buffer) : Buffer :=
  renderF st.current.area st.current.data area buf true

/-! ## `StatefulProtocol::resize_encode_render` (`src/protocol/mod.rs`
110-122).  The enum dispatches every operation to the variant's
implementation of the stateful-protocol trait; the dispatch target is
modelled as a record of the three trait methods over an abstract state
type `σ`. -/

/-- The three trait methods `resize_encode_render` uses, for one concrete
protocol implementation with state type `σ` (`background_color` is not
used by it).  In `src/protocol/mod.rs` the policy/background types are
`&Resize` and `Rgba<u8>`. -/
structure StatefulProtocolOps (σ : Type) where
  needsResize : σ → ResizeFns → Rect → Option Rect
  resizeEncode : σ → ResizeFns → Rgba → Rect → σ
  render : σ → Rect → Buffer → Buffer

/-- `StatefulProtocol::resize_encode_render` (`src/protocol/mod.rs` 110-122):
if `needs_resize` returns a rectangle, `resize_encode` is run on that
rectangle (not on the caller's `area`); rendering then always happens once,
into the caller's `area`.  Returns the rendered buffer and the state after. -/
def resizeEncodeRender {σ : Type} (ops : StatefulProtocolOps σ) (st : σ)
    (resize : ResizeFns) (backgroundColor : Rgba) (area : Rect)
    (buf : Buffer) : Buffer × σ :=
  let stNew :=
    match ops.needsResize st resize area with
    | some rect => ops.resizeEncode st resize backgroundColor rect
    | none => st
  (ops.render stNew area buf, stNew)

/-! ## Picker protocol resolution (`src/picker.rs` 72-98, 218-266, 409-429) -/

/-- A process environment: an association list backing `env::var`. -/
def EnvMap := List (String × String)

/-- `env::var(k)` (success case). -/
def envVar (env : EnvMap) (k : String) : Option String :=
  (env.find? (fun kv => kv.1 = k)).map (fun kv => kv.2)

/-- `Result::is_ok_and` collapsed onto the `Option` model of `env::var`. -/
def isOkAnd (o : Option String) (f : String → Bool) : Bool :=
  match o with
  | some s => f s
  | none => false

/-- Rust `str::contains(pat)` for `String`s. -/
def strContainsSub (s pat : String) : Bool := listContainsSub s.data pat.data

/-- `detect_tmux_and_outer_protocol_from_env` (`src/picker.rs` 218-249):
detect tmux from `TERM`/`TERM_PROGRAM`; if inside tmux, guess an outer
terminal from the first of three magic environment variables that is set
and non-empty.  (The spawned `tmux set -p allow-passthrough on` command is
an external side effect with no influence on the returned value.) -/
def detectTmuxAndOuterProtocolFromEnv (env : EnvMap) :
    Bool × Option ProtocolType :=
  if !(isOkAnd (envVar env "TERM") (fun term => List.isPrefixOf "tmux".data term.data))
      && !(isOkAnd (envVar env "TERM_PROGRAM") (fun tp => tp.data = "tmux".data)) then
    (false, none)
  else
    let hints : List (String × ProtocolType) :=
      [("KITTY_WINDOW_ID", .Kitty),
       ("ITERM_SESSION_ID", .Iterm2),
       ("WEZTERM_EXECUTABLE", .Iterm2)]
    match hints.find? (fun hp => isOkAnd (envVar env hp.1) (fun s => !s.data.isEmpty)) with
    | some hp => (true, some hp.2)
    | none => (true, none)

/-- `iterm2_from_env` (`src/picker.rs` 251-266). -/
def iterm2FromEnv (env : EnvMap) : Option ProtocolType :=
  if isOkAnd (envVar env "TERM_PROGRAM") (fun tp =>
      strContainsSub tp "iTerm" || strContainsSub tp "WezTerm"
        || strContainsSub tp "mintty" || strContainsSub tp "vscode"
        || strContainsSub tp "Tabby" || strContainsSub tp "Hyper") then
    some .Iterm2
  else if isOkAnd (envVar env "LC_TERMINAL") (fun lc => strContainsSub lc "iTerm") then
    some .Iterm2
  else none

/-- The capability-facts part of `query_stdio_capabilities`
(`src/picker.rs` 413-419): Kitty preferred over Sixel, else none. -/
def capabilitiesToProto (caps : List ParsedResponse) : Option ProtocolType :=
  if caps.contains (.Kitty true) then some .Kitty
  else if caps.contains (.Sixel true) then some .Sixel
  else none

/-- The protocol-type resolution of `Picker::from_query_stdio`
(`src/picker.rs` 72-98): `tmux_proto.or(iterm2_proto).or(capability_proto)
.unwrap_or(ProtocolType::Halfblocks)`, with `capability_proto` the result of
the stdio capability query. -/
def fromQueryStdioProtocolType (env : EnvMap)
    (capabilityProto : Option ProtocolType) : ProtocolType :=
  let tmuxProto := (detectTmuxAndOuterProtocolFromEnv env).2
  let iterm2Proto := iterm2FromEnv env
  ((tmuxProto.or iterm2Proto).or capabilityProto).getD .Halfblocks

/-- Resolution as claim C1 states it, for comparison with the code: "an
explicit iTerm2-family environment hint is chosen first, then the heuristic
detection of an outer terminal while inside a multiplexer (tmux), then the
parsed capability facts, and finally Halfblocks". -/
def claimedFromQueryStdioProtocolType (env : EnvMap)
    (capabilityProto : Option ProtocolType) : ProtocolType :=
  let tmuxProto := (detectTmuxAndOuterProtocolFromEnv env).2
  let iterm2Proto := iterm2FromEnv env
  ((iterm2Proto.or tmuxProto).or capabilityProto).getD .Halfblocks

/-! ## Theorems for claims C2, C4, C5, C7 -/

/-- C2: feeding the exact character sequence
`ESC "_Gi=31;OK" ESC "\" ESC "[?64;4c" ESC "[6;7;14t" ESC "[0n"` one character
at a time to a fresh `Parser` emits exactly the facts
`Kitty(true), Sixel(true), CellSize(Some((14,7))), Status`, in that order. -/
theorem parser_push_all_exact_sequence :
    (Parser.new.pushAll "\x1b_Gi=31;OK\x1b\\\x1b[?64;4c\x1b[6;7;14t\x1b[0n".data).2
      = [.Kitty true, .Sixel true, .CellSize (some (14, 7)), .Status] := by
  decide

/-- C4: `ProtocolType::next` is a fixed 4-cycle permutation: applying it four
times returns the start, and the four values visited within one cycle are
pairwise distinct. -/
theorem protocol_type_next_four_cycle :
    ∀ p : ProtocolType,
      p.next.next.next.next = p
      ∧ p ≠ p.next ∧ p ≠ p.next.next ∧ p ≠ p.next.next.next
      ∧ p.next ≠ p.next.next ∧ p.next ≠ p.next.next.next
      ∧ p.next.next ≠ p.next.next.next := by
  intro p
  cases p <;> decide

/-- C5: the image-identifier counter minted for the Kitty protocol
(`kitty_counter.checked_add(1).unwrap_or(1)`) never yields 0: for every
in-range `u32` counter value, the minted value is `c + 1`, except at
`u32::MAX` where it is 1. -/
theorem kitty_counter_never_zero (c : Nat) (hc : c ≤ U32_MAX) :
    mintKittyCounter c ≠ 0
      ∧ (c < U32_MAX → mintKittyCounter c = c + 1)
      ∧ (c = U32_MAX → mintKittyCounter c = 1) := by
  refine ⟨?_, ?_, ?_⟩
  · unfold mintKittyCounter u32CheckedAdd
    split <;> simp
  · intro h
    unfold mintKittyCounter u32CheckedAdd
    rw [if_pos (by omega)]
    rfl
  · intro h
    subst h
    decide

/-- Witness for C5 at the wraparound input `u32::MAX` and at 7. -/
theorem kitty_counter_never_zero_witness :
    mintKittyCounter U32_MAX = 1 ∧ mintKittyCounter U32_MAX ≠ 0
      ∧ mintKittyCounter 7 = 8 :=
  ⟨(kitty_counter_never_zero U32_MAX (by decide)).2.2 rfl,
   (kitty_counter_never_zero U32_MAX (by decide)).1,
   (kitty_counter_never_zero 7 (by decide)).2.1 (by decide)⟩

/-- C7 counterexample: the claim says that in the `ParsingKittyReply` state an
escape character aborts the partial match and returns the parser to Idle with
the buffer cleared.  In the code (`src/picker.rs` lines 496-506) the Kitty arm
has no escape case: the escape is appended to the buffer and the parser stays
in the Kitty state.  Concretely, feeding `ESC "_Gi=31;" ESC` to a fresh parser
(the final `ESC` arrives in the `ParsingKittyReply` state) leaves the parser
in the Kitty state with a non-empty buffer ending in the escape, and a single
escape pushed in that state appends rather than restarts. -/
theorem parsing_kitty_escape_no_abort_counterexample :
    (Parser.new.pushAll "\x1b_Gi=31;\x1b".data).1
        = ⟨"_Gi=31;\x1b".data, .Kitty false⟩
      ∧ (Parser.new.pushAll "\x1b_Gi=31;\x1b".data).1.seq ≠ .Unknown
      ∧ (Parser.new.pushAll "\x1b_Gi=31;\x1b".data).1.data ≠ []
      ∧ Parser.push ⟨"_Gi=31;".data, .Kitty false⟩ '\x1b'
        ≠ (⟨[], .Unknown⟩, none) := by
  decide

/-- C7 amended: in the `ParsingKittyReply` state an escape character does not
abort: like every character other than the `'\'` terminator it is appended to
the buffer, the state is kept, and no fact is emitted (this is required, since
the acknowledgement `"_Gi=31;OK" + ESC` that the terminator is matched against
itself ends in an escape).  The abort-on-escape rule holds for the Sixel,
CellSize and Status states but not for Kitty. -/
theorem parsing_kitty_escape_appends (data : List Char) (b : Bool) :
    Parser.push ⟨data, .Kitty b⟩ '\x1b'
      = (⟨data ++ ['\x1b'], .Kitty b⟩, none) := by
  rfl

/-! ## Theorems for claims C1, C6, C8, C9, C10 -/

/-- C1 counterexample: the claim puts the explicit iTerm2-family environment
hint before the tmux outer-terminal heuristic, but the code resolves
`tmux_proto.or(iterm2_proto).or(capability_proto)` — the tmux heuristic wins.
In an environment inside tmux (`TERM=tmux-256color`) with both
`KITTY_WINDOW_ID=1` (tmux outer-terminal hint ⇒ Kitty) and
`TERM_PROGRAM=WezTerm` (explicit iTerm2-family hint ⇒ Iterm2), the code
picks Kitty while the claimed precedence picks Iterm2. -/
theorem from_query_stdio_precedence_counterexample :
    fromQueryStdioProtocolType
        [("TERM", "tmux-256color"), ("TERM_PROGRAM", "WezTerm"),
         ("KITTY_WINDOW_ID", "1")] none = .Kitty
      ∧ claimedFromQueryStdioProtocolType
        [("TERM", "tmux-256color"), ("TERM_PROGRAM", "WezTerm"),
         ("KITTY_WINDOW_ID", "1")] none = .Iterm2
      ∧ ProtocolType.Kitty ≠ ProtocolType.Iterm2 := by
  refine ⟨by decide, by decide, by decide⟩

/-- C1 amended: protocol resolution in `Picker::from_query_stdio` follows the
precedence: the heuristic detection of an outer terminal while inside a
multiplexer (tmux) is chosen first, then an explicit iTerm2-family
environment hint, then the parsed capability facts with Kitty preferred over
Sixel, and finally the Halfblocks fallback when none of the above produced a
protocol. -/
theorem from_query_stdio_precedence (env : EnvMap)
    (capabilityProto : Option ProtocolType) :
    (∀ p, (detectTmuxAndOuterProtocolFromEnv env).2 = some p →
      fromQueryStdioProtocolType env capabilityProto = p)
    ∧ ((detectTmuxAndOuterProtocolFromEnv env).2 = none →
      ∀ p, iterm2FromEnv env = some p →
        fromQueryStdioProtocolType env capabilityProto = p)
    ∧ ((detectTmuxAndOuterProtocolFromEnv env).2 = none →
      iterm2FromEnv env = none → ∀ p, capabilityProto = some p →
        fromQueryStdioProtocolType env capabilityProto = p)
    ∧ ((detectTmuxAndOuterProtocolFromEnv env).2 = none →
      iterm2FromEnv env = none → capabilityProto = none →
        fromQueryStdioProtocolType env capabilityProto = .Halfblocks)
    ∧ (∀ caps : List ParsedResponse, caps.contains (.Kitty true) = true →
        capabilitiesToProto caps = some .Kitty)
    ∧ (∀ caps : List ParsedResponse, caps.contains (.Kitty true) = false →
        caps.contains (.Sixel true) = true →
        capabilitiesToProto caps = some .Sixel) := by
  refine ⟨?_, ?_, ?_, ?_, ?_, ?_⟩
  · intro p hp
    simp [fromQueryStdioProtocolType, hp, Option.or]
  · intro ht p hp
    simp [fromQueryStdioProtocolType, ht, hp, Option.or]
  · intro ht hi p hp
    simp [fromQueryStdioProtocolType, ht, hi, hp, Option.or]
  · intro ht hi hc
    simp [fromQueryStdioProtocolType, ht, hi, hc, Option.or]
  · intro caps h
    unfold capabilitiesToProto
    rw [if_pos h]
  · intro caps h1 h2
    unfold capabilitiesToProto
    rw [if_neg (by rw [h1]; exact Bool.false_ne_true), if_pos h2]

/-- Witness for C1 amended, exercising every precedence level at concrete
environments. -/
theorem from_query_stdio_precedence_witness :
    fromQueryStdioProtocolType [("TERM", "tmux-256color"), ("KITTY_WINDOW_ID", "1")]
        none = .Kitty
    ∧ fromQueryStdioProtocolType [("TERM_PROGRAM", "iTerm.app")] none = .Iterm2
    ∧ fromQueryStdioProtocolType [] (some .Sixel) = .Sixel
    ∧ fromQueryStdioProtocolType [] none = .Halfblocks
    ∧ capabilitiesToProto [.Kitty true, .Sixel true] = some .Kitty
    ∧ capabilitiesToProto [.Sixel true] = some .Sixel :=
  ⟨(from_query_stdio_precedence
      [("TERM", "tmux-256color"), ("KITTY_WINDOW_ID", "1")] none).1 _ (by decide),
   (from_query_stdio_precedence [("TERM_PROGRAM", "iTerm.app")] none).2.1
      (by decide) _ (by decide),
   (from_query_stdio_precedence [] (some .Sixel)).2.2.1 (by decide) (by decide)
      _ rfl,
   (from_query_stdio_precedence [] none).2.2.2.1 (by decide) (by decide) rfl,
   (from_query_stdio_precedence [] none).2.2.2.2.1 _ (by decide),
   (from_query_stdio_precedence [] none).2.2.2.2.2 _ (by decide) (by decide)⟩

/-- C6: `FixedIterm2::render` (fixed protocol, no overdraw) leaves the
buffer completely unchanged whenever the encoded rectangle's width exceeds
the target area's width or its height exceeds the target area's height. -/
theorem fixed_iterm2_render_refuses (p : FixedIterm2) (area : Rect)
    (buf : Buffer)
    (h : p.area.width > area.width ∨ p.area.height > area.height) :
    p.render area buf = buf := by
  have hra : renderArea p.area area false = none := by
    unfold renderArea
    simp [h]
  unfold FixedIterm2.render renderF
  rw [hra]

/-- Witness for C6: a 5×5 encoded rectangle refused by a 3×3 area. -/
theorem fixed_iterm2_render_refuses_witness :
    (5 > 3 ∨ 5 > 3)
    ∧ FixedIterm2.render ⟨"payload", ⟨0, 0, 5, 5⟩, false⟩ ⟨0, 0, 3, 3⟩
        ⟨⟨0, 0, 3, 3⟩, List.replicate 9 ⟨" ", false⟩⟩
      = ⟨⟨0, 0, 3, 3⟩, List.replicate 9 ⟨" ", false⟩⟩ :=
  ⟨by decide,
   fixed_iterm2_render_refuses ⟨"payload", ⟨0, 0, 5, 5⟩, false⟩ ⟨0, 0, 3, 3⟩
     ⟨⟨0, 0, 3, 3⟩, List.replicate 9 ⟨" ", false⟩⟩ (by decide)⟩

/-- C8: `Iterm2State::resize_encode` is atomic on encode failure — if the
resize step yields a bitmap but serializing it fails, the cached encoding
(`current`) and the stored fingerprint (`hash`) are both left unchanged (the
whole state is returned unmodified, and the total return type shows no error
reaches the caller or the render path) — and the whole operation is a no-op
when the area has zero width or height. -/
theorem iterm2_resize_encode_atomic
    (pngWrite : Image → Except EncodeError (List Nat)) (resize : ResizeFns)
    (st : Iterm2State) (backgroundColor : Option Rgb) (area : Rect) :
    (∀ img rect e,
      resize.resizeFn st.source st.fontSize st.current.area area
        backgroundColor (st.source.hash != st.hash) = some (img, rect) →
      pngWrite img = .error e →
      Iterm2State.resizeEncode pngWrite resize st backgroundColor area = st)
    ∧ (area.width = 0 ∨ area.height = 0 →
      Iterm2State.resizeEncode pngWrite resize st backgroundColor area = st) := by
  constructor
  · intro img rect e hr he
    unfold Iterm2State.resizeEncode
    split
    · rfl
    · rw [hr]
      have henc : encode pngWrite img st.current.isTmux = .error e := by
        unfold encode
        rw [he]
      simp [henc]
  · intro h
    unfold Iterm2State.resizeEncode
    have hz : (decide (area.width = 0) || decide (area.height = 0)) = true := by
      rcases h with h | h <;> simp [h]
    rw [if_pos hz]

/-- Witness for C8: a failing PNG codec leaves a concrete state untouched,
and a zero-height area is a no-op. -/
theorem iterm2_resize_encode_atomic_witness :
    Iterm2State.resizeEncode (fun _ => .error (.imageError "boom"))
        ⟨fun _ _ _ _ _ => none,
         fun _ _ _ _ _ _ => some (⟨1, 1, [0, 0, 0, 0]⟩, ⟨0, 0, 1, 1⟩)⟩
        ⟨⟨⟨1, 1, [0, 0, 0, 0]⟩, ⟨0, 0, 1, 1⟩, 42, ⟨0, 0, 0, 0⟩⟩, (1, 1),
          FixedIterm2.default, 0⟩
        none ⟨0, 0, 2, 2⟩
      = ⟨⟨⟨1, 1, [0, 0, 0, 0]⟩, ⟨0, 0, 1, 1⟩, 42, ⟨0, 0, 0, 0⟩⟩, (1, 1),
          FixedIterm2.default, 0⟩
    ∧ Iterm2State.resizeEncode (fun _ => .error (.imageError "boom"))
        ⟨fun _ _ _ _ _ => none,
         fun _ _ _ _ _ _ => some (⟨1, 1, [0, 0, 0, 0]⟩, ⟨0, 0, 1, 1⟩)⟩
        ⟨⟨⟨1, 1, [0, 0, 0, 0]⟩, ⟨0, 0, 1, 1⟩, 42, ⟨0, 0, 0, 0⟩⟩, (1, 1),
          FixedIterm2.default, 0⟩
        none ⟨0, 0, 5, 0⟩
      = ⟨⟨⟨1, 1, [0, 0, 0, 0]⟩, ⟨0, 0, 1, 1⟩, 42, ⟨0, 0, 0, 0⟩⟩, (1, 1),
          FixedIterm2.default, 0⟩ :=
  ⟨(iterm2_resize_encode_atomic (fun _ => .error (.imageError "boom"))
      ⟨fun _ _ _ _ _ => none,
       fun _ _ _ _ _ _ => some (⟨1, 1, [0, 0, 0, 0]⟩, ⟨0, 0, 1, 1⟩)⟩
      ⟨⟨⟨1, 1, [0, 0, 0, 0]⟩, ⟨0, 0, 1, 1⟩, 42, ⟨0, 0, 0, 0⟩⟩, (1, 1),
        FixedIterm2.default, 0⟩
      none ⟨0, 0, 2, 2⟩).1 _ _ (.imageError "boom") rfl rfl,
   (iterm2_resize_encode_atomic (fun _ => .error (.imageError "boom"))
      ⟨fun _ _ _ _ _ => none,
       fun _ _ _ _ _ _ => some (⟨1, 1, [0, 0, 0, 0]⟩, ⟨0, 0, 1, 1⟩)⟩
      ⟨⟨⟨1, 1, [0, 0, 0, 0]⟩, ⟨0, 0, 1, 1⟩, 42, ⟨0, 0, 0, 0⟩⟩, (1, 1),
        FixedIterm2.default, 0⟩
      none ⟨0, 0, 5, 0⟩).2 (Or.inr rfl)⟩

/-- C9: the content fingerprint of `ImageSource::new` is a function of the
raw pixel bytes only: two sources built (with the same external hasher and
compositor) from bit-identical bitmap content have equal fingerprints,
whatever the other construction parameters — in particular the background
color used for compositing — because the hash is taken from `as_bytes()`
before any compositing. -/
theorem image_source_fingerprint_content_only
    (hashF : List Nat → Nat) (overlayF : Image → Image → Image)
    (img1 img2 : Image) (fs1 fs2 : FontSize) (bg1 bg2 : Rgba)
    (h : img1.bytes = img2.bytes) :
    (ImageSource.new hashF overlayF img1 fs1 bg1).hash
      = (ImageSource.new hashF overlayF img2 fs2 bg2).hash := by
  unfold ImageSource.new
  simp [h]

/-- Witness for C9: same bytes, different dimensions, font sizes and
background colors (one fully transparent, one opaque). -/
theorem image_source_fingerprint_content_only_witness :
    (ImageSource.new (fun l => l.length) (fun _ img => img) ⟨2, 1, [9, 9, 9, 9]⟩
        (7, 14) ⟨0, 0, 0, 0⟩).hash
      = (ImageSource.new (fun l => l.length) (fun _ img => img) ⟨1, 2, [9, 9, 9, 9]⟩
        (1, 1) ⟨255, 0, 0, 255⟩).hash :=
  image_source_fingerprint_content_only (fun l => l.length) (fun _ img => img)
    ⟨2, 1, [9, 9, 9, 9]⟩ ⟨1, 2, [9, 9, 9, 9]⟩ (7, 14) (1, 1) ⟨0, 0, 0, 0⟩
    ⟨255, 0, 0, 255⟩ rfl

/-- C10: `StatefulProtocol::resize_encode_render` calls `resize_encode` iff
`needs_resize` returns `Some`, passes the returned rectangle (not the
caller's `area`) as the resize target, and in all cases renders exactly once
into the original `area`. -/
theorem resize_encode_render_dispatch {σ : Type} (ops : StatefulProtocolOps σ)
    (st : σ) (resize : ResizeFns) (backgroundColor : Rgba) (area : Rect)
    (buf : Buffer) :
    (∀ rect, ops.needsResize st resize area = some rect →
      resizeEncodeRender ops st resize backgroundColor area buf
        = (ops.render (ops.resizeEncode st resize backgroundColor rect) area buf,
           ops.resizeEncode st resize backgroundColor rect))
    ∧ (ops.needsResize st resize area = none →
      resizeEncodeRender ops st resize backgroundColor area buf
        = (ops.render st area buf, st)) := by
  constructor
  · intro rect h
    unfold resizeEncodeRender
    rw [h]
  · intro h
    unfold resizeEncodeRender
    rw [h]

/-- Witness for C10: a recording instance whose state remembers the
rectangle handed to `resize_encode`; `needs_resize` returns `⟨1,2,3,4⟩`
while the caller's area is `⟨0,0,9,9⟩`, and the final state records
`⟨1,2,3,4⟩`. -/
theorem resize_encode_render_dispatch_witness :
    resizeEncodeRender (σ := Rect)
        ⟨fun _ _ _ => some ⟨1, 2, 3, 4⟩, fun _ _ _ rect => rect, fun _ _ b => b⟩
        ⟨0, 0, 0, 0⟩ ⟨fun _ _ _ _ _ => none, fun _ _ _ _ _ _ => none⟩
        ⟨0, 0, 0, 0⟩ ⟨0, 0, 9, 9⟩ ⟨⟨0, 0, 1, 1⟩, [⟨" ", false⟩]⟩
      = (⟨⟨0, 0, 1, 1⟩, [⟨" ", false⟩]⟩, ⟨1, 2, 3, 4⟩) :=
  (resize_encode_render_dispatch (σ := Rect)
      ⟨fun _ _ _ => some ⟨1, 2, 3, 4⟩, fun _ _ _ rect => rect, fun _ _ b => b⟩
      ⟨0, 0, 0, 0⟩ ⟨fun _ _ _ _ _ => none, fun _ _ _ _ _ _ => none⟩
      ⟨0, 0, 0, 0⟩ ⟨0, 0, 9, 9⟩ ⟨⟨0, 0, 1, 1⟩, [⟨" ", false⟩]⟩).1
    ⟨1, 2, 3, 4⟩ rfl

/-! ## Claim C3: helper lemmas about `log2floor`, `rneNat` and `ceilNat` -/

theorem log2floor_spec (fuel : Nat) : ∀ n : Nat, 1 ≤ n → n ≤ fuel →
    2 ^ log2floor fuel n ≤ n ∧ n < 2 ^ (log2floor fuel n + 1) := by
  induction fuel with
  | zero => intro n h1 h2; omega
  | succ fuel ih =>
    intro n h1 h2
    unfold log2floor
    by_cases hn : n < 2
    · simp only [hn, if_true]
      omega
    · simp only [hn, if_false]
      have hrec := ih (n / 2) (by omega) (by omega)
      have e1 : 2 ^ (log2floor fuel (n / 2) + 1) = 2 * 2 ^ log2floor fuel (n / 2) := by
        ring
      have e2 : 2 ^ (log2floor fuel (n / 2) + 1 + 1)
          = 2 * 2 ^ (log2floor fuel (n / 2) + 1) := by ring
      omega

theorem natLog2F_spec (n : Nat) (h : 1 ≤ n) :
    2 ^ natLog2F n ≤ n ∧ n < 2 ^ (natLog2F n + 1) :=
  log2floor_spec n n h le_rfl

theorem natLog2F_unique (n j : Nat) (h1 : 1 ≤ n) (h2 : 2 ^ j ≤ n)
    (h3 : n < 2 ^ (j + 1)) : natLog2F n = j := by
  have hs := natLog2F_spec n h1
  have hj1 : j < natLog2F n + 1 :=
    (Nat.pow_lt_pow_iff_right (by norm_num)).mp (lt_of_le_of_lt h2 hs.2)
  have hj2 : natLog2F n < j + 1 :=
    (Nat.pow_lt_pow_iff_right (by norm_num)).mp (lt_of_le_of_lt hs.1 h3)
  omega

theorem ceilNat_eq (num den : Nat) (hden : 0 < den) :
    ceilNat num den = num / den + (if num % den = 0 then 0 else 1) := by
  have hdm := Nat.div_add_mod num den
  have hlt : num % den < den := Nat.mod_lt num hden
  by_cases hr : num % den = 0
  · simp only [hr, if_true]
    unfold ceilNat
    have harr : num + den - 1 = (den - 1) + den * (num / den) := by omega
    rw [harr, Nat.add_mul_div_left _ _ hden, Nat.div_eq_of_lt (by omega)]
    omega
  · simp only [hr, if_false]
    unfold ceilNat
    have hmul : den * (num / den + 1) = den * (num / den) + den := by ring
    have harr : num + den - 1 = (num % den - 1) + den * (num / den + 1) := by omega
    rw [harr, Nat.add_mul_div_left _ _ hden, Nat.div_eq_of_lt (by omega)]
    omega

theorem le_mul_ceilNat (num den : Nat) (hden : 0 < den) :
    num ≤ den * ceilNat num den := by
  rw [ceilNat_eq num den hden]
  have hdm := Nat.div_add_mod num den
  have hlt : num % den < den := Nat.mod_lt num hden
  by_cases hr : num % den = 0
  · simp only [hr, if_true, Nat.add_zero]
    omega
  · simp only [hr, if_false]
    have hmul : den * (num / den + 1) = den * (num / den) + den := by ring
    omega

theorem ceilNat_le (num den t : Nat) (hden : 0 < den) (h : num ≤ den * t) :
    ceilNat num den ≤ t := by
  rw [ceilNat_eq num den hden]
  have hdm := Nat.div_add_mod num den
  have hlt : num % den < den := Nat.mod_lt num hden
  by_cases hr : num % den = 0
  · simp only [hr, if_true, Nat.add_zero]
    by_contra hgt
    push_neg at hgt
    have hmm : den * (t + 1) ≤ den * (num / den) :=
      Nat.mul_le_mul_left den (by omega)
    have hmul : den * (t + 1) = den * t + den := by ring
    omega
  · simp only [hr, if_false]
    by_contra hgt
    push_neg at hgt
    have hmm : den * t ≤ den * (num / den) := Nat.mul_le_mul_left den (by omega)
    omega

theorem lt_imp_le_ceilNat (num den s : Nat) (hden : 0 < den)
    (h : den * s < num) : s + 1 ≤ ceilNat num den := by
  rw [ceilNat_eq num den hden]
  have hdm := Nat.div_add_mod num den
  have hlt : num % den < den := Nat.mod_lt num hden
  by_cases hr : num % den = 0
  · simp only [hr, if_true, Nat.add_zero]
    by_contra hgt
    push_neg at hgt
    have hmm : den * (num / den) ≤ den * s := Nat.mul_le_mul_left den (by omega)
    omega
  · simp only [hr, if_false]
    by_contra hgt
    push_neg at hgt
    have hmm : den * (num / den + 1) ≤ den * s := Nat.mul_le_mul_left den (by omega)
    have hmul : den * (num / den + 1) = den * (num / den) + den := by ring
    omega

theorem rneNat_ge_div (num den : Nat) : num / den ≤ rneNat num den := by
  unfold rneNat
  split_ifs <;> omega

theorem rneNat_le_ceil (num den : Nat) (hden : 0 < den) :
    rneNat num den ≤ ceilNat num den := by
  rw [ceilNat_eq num den hden]
  have hdm := Nat.div_add_mod num den
  have hlt : num % den < den := Nat.mod_lt num hden
  unfold rneNat
  split_ifs <;> omega

theorem rneNat_eq_div_of_mod_zero (num den : Nat) (h : num % den = 0)
    (hden : 0 < den) : rneNat num den = num / den := by
  unfold rneNat
  split_ifs <;> omega

theorem rneNat_eq_succ (num den : Nat) (h : den < 2 * (num % den)) :
    rneNat num den = num / den + 1 := by
  unfold rneNat
  split_ifs <;> omega

theorem rneNat_one (u : Nat) : rneNat u 1 = u := by
  unfold rneNat
  split_ifs <;> omega

theorem rneNat_scale (a b k : Nat) (hk : 0 < k) :
    rneNat (a * k) (b * k) = rneNat a b := by
  have hdiv : a * k / (b * k) = a / b := Nat.mul_div_mul_right a b hk
  have hmod : a * k % (b * k) = a % b * k := Nat.mul_mod_mul_right k a b
  have hc1 : (2 * (a % b * k) < b * k) ↔ (2 * (a % b) < b) := by
    rw [show 2 * (a % b * k) = 2 * (a % b) * k by ring]
    exact Nat.mul_lt_mul_right hk
  have hc2 : (b * k < 2 * (a % b * k)) ↔ (b < 2 * (a % b)) := by
    rw [show 2 * (a % b * k) = 2 * (a % b) * k by ring]
    exact Nat.mul_lt_mul_right hk
  unfold rneNat
  simp only [hdiv, hmod, hc1, hc2]

theorem f32roundF_scale (a b k : Nat) (hk : 0 < k) :
    f32roundF (a * k) (b * k) = f32roundF a b := by
  by_cases ha : a = 0
  · subst ha
    simp [f32roundF]
  · have hak : ¬(a * k = 0) := by positivity
    unfold f32roundF floorLog2F
    rw [if_neg hak, if_neg ha]
    have hdiv40 : a * k * 2 ^ 40 / (b * k) = a * 2 ^ 40 / b := by
      rw [show a * k * 2 ^ 40 = a * 2 ^ 40 * k by ring]
      exact Nat.mul_div_mul_right _ _ hk
    rw [hdiv40]
    have hrne : ∀ u v : Nat,
        rneNat (a * k * 2 ^ u) (b * k * 2 ^ v) = rneNat (a * 2 ^ u) (b * 2 ^ v) := by
      intro u v
      rw [show a * k * 2 ^ u = a * 2 ^ u * k by ring,
        show b * k * 2 ^ v = b * 2 ^ v * k by ring]
      exact rneNat_scale _ _ _ hk
    rw [hrne]

theorem u32ToF32_exact (n : Nat) (h1 : 1 ≤ n) (h2 : n < 2 ^ 24) :
    u32ToF32 n = (n * 2 ^ (23 - natLog2F n), 2 ^ (23 - natLog2F n)) := by
  have hk := natLog2F_spec n h1
  have hk23 : natLog2F n ≤ 23 := by
    by_contra hlt
    push_neg at hlt
    have hpow : (2 : Nat) ^ 24 ≤ 2 ^ natLog2F n :=
      Nat.pow_le_pow_right (by norm_num) (by omega)
    omega
  have hlogN : natLog2F (n * 2 ^ 40) = natLog2F n + 40 := by
    apply natLog2F_unique
    · have : (1 : Nat) ≤ 2 ^ 40 := Nat.one_le_two_pow
      exact Nat.one_le_iff_ne_zero.mpr (by positivity)
    · rw [pow_add]
      exact Nat.mul_le_mul_right _ hk.1
    · rw [show natLog2F n + 40 + 1 = natLog2F n + 1 + 40 by ring, pow_add]
      exact (Nat.mul_lt_mul_right (by positivity)).mpr hk.2
  unfold u32ToF32 f32roundF floorLog2F
  rw [if_neg (by omega), Nat.div_one, hlogN]
  have e2 : (-((23 : Int) - (((natLog2F n + 40 : Nat) : Int) - 40))).toNat = 0 := by
    omega
  have e3 : ((23 : Int) - (((natLog2F n + 40 : Nat) : Int) - 40)).toNat = 23 - natLog2F n := by
    omega
  rw [e2, e3, pow_zero, mul_one, mul_one, rneNat_one]

theorem f32_ceil_div_exact (a b : Nat) (ha1 : 1 ≤ a) (ha2 : a < 2 ^ 24)
    (hb1 : 1 ≤ b) (hb2 : b ≤ 2 ^ 40) :
    ceilF (f32roundF a b) = ceilNat a b := by
  have hbpos : 0 < b := hb1
  have hN1 : 1 ≤ a * 2 ^ 40 / b := by
    rw [Nat.one_le_div_iff hbpos]
    calc b ≤ 2 ^ 40 := hb2
      _ ≤ a * 2 ^ 40 := Nat.le_mul_of_pos_left _ ha1
  have hNs := natLog2F_spec (a * 2 ^ 40 / b) hN1
  have hstar1 : b * 2 ^ natLog2F (a * 2 ^ 40 / b) ≤ a * 2 ^ 40 := by
    calc b * 2 ^ natLog2F (a * 2 ^ 40 / b)
        ≤ b * (a * 2 ^ 40 / b) := Nat.mul_le_mul_left b hNs.1
      _ = a * 2 ^ 40 / b * b := Nat.mul_comm _ _
      _ ≤ a * 2 ^ 40 := Nat.div_mul_le_self _ _
  have hstar2 : a * 2 ^ 40 < b * 2 ^ (natLog2F (a * 2 ^ 40 / b) + 1) := by
    calc a * 2 ^ 40 < b * (a * 2 ^ 40 / b + 1) := Nat.lt_mul_div_succ _ hbpos
      _ ≤ b * 2 ^ (natLog2F (a * 2 ^ 40 / b) + 1) := Nat.mul_le_mul_left b (by omega)
  have ha40 : a * 2 ^ 40 < 2 ^ 24 * 2 ^ 40 := (Nat.mul_lt_mul_right (by positivity)).mpr ha2
  have hk63 : natLog2F (a * 2 ^ 40 / b) ≤ 63 := by
    by_contra h
    push_neg at h
    have hp1 : (2 : Nat) ^ 64 ≤ 2 ^ natLog2F (a * 2 ^ 40 / b) :=
      Nat.pow_le_pow_right (by norm_num) (by omega)
    have hp2 : b * 2 ^ 64 ≤ b * 2 ^ natLog2F (a * 2 ^ 40 / b) :=
      Nat.mul_le_mul_left b hp1
    have hp3 : (2 : Nat) ^ 24 * 2 ^ 40 = 2 ^ 64 := by norm_num
    have hp4 : (2 : Nat) ^ 64 ≤ b * 2 ^ 64 := Nat.le_mul_of_pos_left _ hbpos
    omega
  have hblt : b < 2 ^ (64 - natLog2F (a * 2 ^ 40 / b)) := by
    have hp3 : (2 : Nat) ^ 24 * 2 ^ 40
        = 2 ^ natLog2F (a * 2 ^ 40 / b) * 2 ^ (64 - natLog2F (a * 2 ^ 40 / b)) := by
      have he : natLog2F (a * 2 ^ 40 / b) + (64 - natLog2F (a * 2 ^ 40 / b)) = 64 := by
        omega
      rw [← pow_add, ← pow_add, he]
    have hp5 : b * 2 ^ natLog2F (a * 2 ^ 40 / b)
        < 2 ^ (64 - natLog2F (a * 2 ^ 40 / b)) * 2 ^ natLog2F (a * 2 ^ 40 / b) := by
      have := Nat.mul_comm (2 ^ natLog2F (a * 2 ^ 40 / b))
        (2 ^ (64 - natLog2F (a * 2 ^ 40 / b)))
      omega
    exact (Nat.mul_lt_mul_right (by positivity)).mp hp5
  -- reduce the rounding step to mantissa form
  have hfr : f32roundF a b
      = (rneNat (a * 2 ^ (63 - natLog2F (a * 2 ^ 40 / b))) b,
         2 ^ (63 - natLog2F (a * 2 ^ 40 / b))) := by
    unfold f32roundF floorLog2F
    rw [if_neg (by omega)]
    have e2 : (-((23 : Int) - (((natLog2F (a * 2 ^ 40 / b) : Nat) : Int) - 40))).toNat
        = 0 := by omega
    have e3 : (((23 : Int) - (((natLog2F (a * 2 ^ 40 / b) : Nat) : Int) - 40))).toNat
        = 63 - natLog2F (a * 2 ^ 40 / b) := by omega
    rw [e2, e3, pow_zero, mul_one, mul_one]
  rw [hfr]
  show ceilNat (rneNat (a * 2 ^ (63 - natLog2F (a * 2 ^ 40 / b))) b)
      (2 ^ (63 - natLog2F (a * 2 ^ 40 / b))) = ceilNat a b
  have hSk : 64 - natLog2F (a * 2 ^ 40 / b) = (63 - natLog2F (a * 2 ^ 40 / b)) + 1 := by
    omega
  rw [hSk] at hblt
  -- from here on only `S` matters
  generalize 63 - natLog2F (a * 2 ^ 40 / b) = S at hblt ⊢
  have hSpos : (0 : Nat) < 2 ^ S := by positivity
  have hdm := Nat.div_add_mod a b
  have hlt : a % b < b := Nat.mod_lt a hbpos
  -- upper bound
  have hup : rneNat (a * 2 ^ S) b ≤ ceilNat a b * 2 ^ S := by
    have h1 : rneNat (a * 2 ^ S) b ≤ ceilNat (a * 2 ^ S) b := rneNat_le_ceil _ _ hbpos
    have h2 : a ≤ b * ceilNat a b := le_mul_ceilNat a b hbpos
    have h3 : a * 2 ^ S ≤ b * (ceilNat a b * 2 ^ S) := by
      have h4 : a * 2 ^ S ≤ b * ceilNat a b * 2 ^ S := Nat.mul_le_mul_right _ h2
      have h5 : b * ceilNat a b * 2 ^ S = b * (ceilNat a b * 2 ^ S) := by ring
      omega
    exact le_trans h1 (ceilNat_le _ _ _ hbpos h3)
  have hupc : ceilNat (rneNat (a * 2 ^ S) b) (2 ^ S) ≤ ceilNat a b := by
    apply ceilNat_le _ _ _ hSpos
    have := Nat.mul_comm (2 ^ S) (ceilNat a b)
    omega
  -- lower bound
  have hlow : ceilNat a b ≤ ceilNat (rneNat (a * 2 ^ S) b) (2 ^ S) := by
    by_cases hr : a % b = 0
    · -- exact division: the mantissa is exactly (a / b) · 2^S
      have hq1 : 1 ≤ a / b := by
        rw [Nat.one_le_div_iff hbpos]
        by_contra hab
        push_neg at hab
        have := Nat.mod_eq_of_lt hab
        omega
      have hceq : ceilNat a b = a / b := by
        rw [ceilNat_eq a b hbpos]
        simp [hr]
      have hdiveq : a * 2 ^ S = b * (a / b * 2 ^ S) := by
        have hba : b * (a / b) = a := by omega
        calc a * 2 ^ S = b * (a / b) * 2 ^ S := by rw [hba]
          _ = b * (a / b * 2 ^ S) := by ring
      have hmod0 : a * 2 ^ S % b = 0 := by
        rw [hdiveq]
        exact Nat.mul_mod_right b _
      have hdiv : a * 2 ^ S / b = a / b * 2 ^ S := by
        rw [hdiveq]
        exact Nat.mul_div_cancel_left _ hbpos
      have hm : rneNat (a * 2 ^ S) b = a / b * 2 ^ S := by
        rw [rneNat_eq_div_of_mod_zero _ _ hmod0 hbpos, hdiv]
      have hlast : 2 ^ S * (a / b - 1) < rneNat (a * 2 ^ S) b := by
        rw [hm]
        have hx : 2 ^ S * (a / b - 1) < 2 ^ S * (a / b) :=
          (Nat.mul_lt_mul_left hSpos).mpr (by omega)
        have hy := Nat.mul_comm (2 ^ S) (a / b)
        omega
      have := lt_imp_le_ceilNat _ _ _ hSpos hlast
      omega
    · -- inexact division: the mantissa is strictly above (a / b) · 2^S
      have hceq : ceilNat a b = a / b + 1 := by
        rw [ceilNat_eq a b hbpos]
        simp [hr]
      have hexp : a * 2 ^ S = b * (a / b * 2 ^ S) + a % b * 2 ^ S := by
        calc a * 2 ^ S = (b * (a / b) + a % b) * 2 ^ S := by rw [hdm]
          _ = b * (a / b * 2 ^ S) + a % b * 2 ^ S := by ring
      have hkey : a / b * 2 ^ S + 1 ≤ rneNat (a * 2 ^ S) b := by
        by_cases hsplit : b ≤ a % b * 2 ^ S
        · -- the scaled remainder carries into the quotient
          have hge : a / b * 2 ^ S + 1 ≤ a * 2 ^ S / b := by
            rw [Nat.le_div_iff_mul_le hbpos]
            calc (a / b * 2 ^ S + 1) * b = b * (a / b * 2 ^ S) + b := by ring
              _ ≤ b * (a / b * 2 ^ S) + a % b * 2 ^ S := by omega
              _ = a * 2 ^ S := hexp.symm
          exact le_trans hge (rneNat_ge_div _ _)
        · -- the scaled remainder is still below b, but above b/2: round up
          push_neg at hsplit
          have hmodv : a * 2 ^ S % b = a % b * 2 ^ S := by
            rw [hexp, Nat.mul_add_mod]
            exact Nat.mod_eq_of_lt hsplit
          have h2r : b < 2 * (a * 2 ^ S % b) := by
            rw [hmodv]
            have hr1 : 1 ≤ a % b := by omega
            have hge2 : 2 ^ S ≤ a % b * 2 ^ S := Nat.le_mul_of_pos_left _ hr1
            have hp1 : (2 : Nat) ^ (S + 1) = 2 * 2 ^ S := by ring
            omega
          have hdiv : a * 2 ^ S / b = a / b * 2 ^ S := by
            rw [hexp, Nat.mul_add_div hbpos, Nat.div_eq_of_lt hsplit]
            omega
          rw [rneNat_eq_succ _ _ h2r, hdiv]
      have hlast : 2 ^ S * (a / b) < rneNat (a * 2 ^ S) b := by
        have := Nat.mul_comm (2 ^ S) (a / b)
        omega
      have := lt_imp_le_ceilNat _ _ _ hSpos hlast
      omega
  omega

theorem f32_pipeline_exact (w cw : Nat) (h1 : 1 ≤ w) (h2 : w < 2 ^ 24)
    (h3 : 1 ≤ cw) (h4 : cw ≤ 65535) :
    ceilF (f32divF (u32ToF32 w) (u32ToF32 cw)) = ceilNat w cw := by
  have h4b : cw < 2 ^ 24 := by
    calc cw ≤ 65535 := h4
      _ < 2 ^ 24 := by norm_num
  rw [u32ToF32_exact w h1 h2, u32ToF32_exact cw h3 h4b]
  unfold f32divF
  have e1 : (w * 2 ^ (23 - natLog2F w), 2 ^ (23 - natLog2F w)).1
      * (cw * 2 ^ (23 - natLog2F cw), 2 ^ (23 - natLog2F cw)).2
      = w * (2 ^ (23 - natLog2F w) * 2 ^ (23 - natLog2F cw)) := by
    simp only []
    ring
  have e2 : (w * 2 ^ (23 - natLog2F w), 2 ^ (23 - natLog2F w)).2
      * (cw * 2 ^ (23 - natLog2F cw), 2 ^ (23 - natLog2F cw)).1
      = cw * (2 ^ (23 - natLog2F w) * 2 ^ (23 - natLog2F cw)) := by
    simp only []
    ring
  rw [e1, e2, f32roundF_scale w cw _ (by positivity)]
  exact f32_ceil_div_exact w cw h1 h2 h3 (le_trans h4 (by norm_num))

/-- C3 counterexample: the claim asserts exact ceiling division (and hence
`footprint * cell ≥ pixel`) for every positive pixel and cell size, but the
code computes in `f32` and casts with saturation to `u16`.  At pixel width
458752 = 65536·7 with cell width 7 the exact ceiling is 65536, yet the
saturating `as u16` cast yields 65535, and 65535·7 < 458752.  At pixel width
16777217 = 2²⁴+1 with cell width 512 the conversion to `f32` rounds the
pixel width down to 2²⁴, the computed footprint is 32768 (not saturated),
yet the exact ceiling is 32769, and 32768·512 < 16777217. -/
theorem round_pixel_size_counterexample :
    (roundPixelSizeToCells 458752 458752 (7, 7)).width = 65535
    ∧ 65535 * 7 < 458752
    ∧ (roundPixelSizeToCells 16777217 16777217 (512, 512)).width = 32768
    ∧ 32768 * 512 < 16777217
    ∧ ceilNat 458752 7 = 65536
    ∧ ceilNat 16777217 512 = 32769 := by
  refine ⟨by decide, by decide, by decide, by decide, by decide, by decide⟩

/-- C3 amended: for positive pixel sizes below `2²⁴` (the range in which a
`u32` converts to `f32` exactly) and positive `u16` cell sizes, whenever the
exact ceiling quotient fits `u16`, the footprint computed by
`round_pixel_size_to_cells` satisfies `footprint * cell ≥ pixel` in both
axes and is the minimal such pair of cell counts — i.e. it is exact ceiling
division in each axis. -/
theorem round_pixel_size_ceiling (pw ph cw ch : Nat)
    (hpw1 : 1 ≤ pw) (hpw2 : pw < 2 ^ 24) (hph1 : 1 ≤ ph) (hph2 : ph < 2 ^ 24)
    (hcw1 : 1 ≤ cw) (hcw2 : cw ≤ 65535) (hch1 : 1 ≤ ch) (hch2 : ch ≤ 65535)
    (hfw : ceilNat pw cw ≤ 65535) (hfh : ceilNat ph ch ≤ 65535) :
    pw ≤ (roundPixelSizeToCells pw ph (cw, ch)).width * cw
    ∧ ph ≤ (roundPixelSizeToCells pw ph (cw, ch)).height * ch
    ∧ (∀ n, pw ≤ n * cw → (roundPixelSizeToCells pw ph (cw, ch)).width ≤ n)
    ∧ (∀ n, ph ≤ n * ch → (roundPixelSizeToCells pw ph (cw, ch)).height ≤ n) := by
  have hwidth : (roundPixelSizeToCells pw ph (cw, ch)).width = ceilNat pw cw := by
    show f32AsU16 (ceilF (f32divF (u32ToF32 pw) (u32ToF32 cw))) = ceilNat pw cw
    rw [f32_pipeline_exact pw cw hpw1 hpw2 hcw1 hcw2]
    unfold f32AsU16 U16_MAX
    omega
  have hheight : (roundPixelSizeToCells pw ph (cw, ch)).height = ceilNat ph ch := by
    show f32AsU16 (ceilF (f32divF (u32ToF32 ph) (u32ToF32 ch))) = ceilNat ph ch
    rw [f32_pipeline_exact ph ch hph1 hph2 hch1 hch2]
    unfold f32AsU16 U16_MAX
    omega
  refine ⟨?_, ?_, ?_, ?_⟩
  · rw [hwidth]
    have h1 := le_mul_ceilNat pw cw hcw1
    have h2 := Nat.mul_comm cw (ceilNat pw cw)
    omega
  · rw [hheight]
    have h1 := le_mul_ceilNat ph ch hch1
    have h2 := Nat.mul_comm ch (ceilNat ph ch)
    omega
  · intro n hn
    rw [hwidth]
    exact ceilNat_le _ _ _ hcw1 (by rw [Nat.mul_comm] at hn; exact hn)
  · intro n hn
    rw [hheight]
    exact ceilNat_le _ _ _ hch1 (by rw [Nat.mul_comm] at hn; exact hn)

/-- Witness for C3 amended at a 300×200 bitmap with a 7×14 font. -/
theorem round_pixel_size_ceiling_witness :
    300 ≤ (roundPixelSizeToCells 300 200 (7, 14)).width * 7
    ∧ 200 ≤ (roundPixelSizeToCells 300 200 (7, 14)).height * 14
    ∧ (∀ n, 300 ≤ n * 7 → (roundPixelSizeToCells 300 200 (7, 14)).width ≤ n)
    ∧ (∀ n, 200 ≤ n * 14 → (roundPixelSizeToCells 300 200 (7, 14)).height ≤ n) :=
  round_pixel_size_ceiling 300 200 7 14 (by decide) (by decide) (by decide)
    (by decide) (by decide) (by decide) (by decide) (by decide) (by decide)
    (by decide)

end RatatuiImage
